import Mathlib

/-!
Verification of the session discovery-memory cache of the Pokemon deck builder
(`app/utils/memory_cache.py` and the search-decision policy in
`app/utils/claude_client.py`), shallowly embedded in Lean.

Modelling conventions:
* Python `str` is `String`; `str.lower()` is `String.toLower`; the substring
  test `a in b` is `strContains b a`; `str.split()` with no argument is
  `pyWords` (split on whitespace, empty pieces dropped).
* Python `dict` is an insertion-ordered association list with unique keys;
  `d[k] = v` is `dictInsert` (overwrite in place, else append), lookup is
  `dictGet?`, deletion is `dictDel`.
* Python floats are modelled as rationals `ℚ` (all scores in the source are
  small decimal sums where binary rounding plays no intended role).
* `datetime` values are rationals counting seconds; `datetime.now()` becomes
  an explicit `now : ℚ` argument; `timedelta(hours=6)` is `21600`.
* A card record is a loosely-typed dict in the source; the fields the cache
  reads are modelled explicitly, `Option` where the code distinguishes a
  missing field from a present one, plain lists where missing and empty are
  treated identically by every read (`card.get('types', [])` etc.).
-/

namespace PokemonCache

/-- `charsPrefOf n h` holds when the character list `n` is an initial
    segment of `h`. -/
def charsPrefOf : List Char → List Char → Bool
  | [], _ => true
  | _ :: _, [] => false
  | a :: as, b :: bs => a == b && charsPrefOf as bs

/-- `charsSubOf n h` holds when `n` occurs contiguously somewhere in `h`
    (the empty list occurs everywhere). -/
def charsSubOf (needle : List Char) : List Char → Bool
  | [] => charsPrefOf needle []
  | b :: bs => charsPrefOf needle (b :: bs) || charsSubOf needle bs

/-- Python's substring test `needle in hay` (both already arbitrary strings). -/
def strContains (hay needle : String) : Bool :=
  charsSubOf needle.data hay.data

/-- Python's `str.lower()`, character by character (the character-list
    implementation of `String.toLower`, written structurally). -/
def pyLower (s : String) : String :=
  ⟨s.data.map Char.toLower⟩

/-- Accumulator loop for `pyWords`: the current partial word is carried
    reversed. -/
def pyWordsAux : List Char → List Char → List String
  | [], acc => if acc.isEmpty then [] else [String.mk acc.reverse]
  | c :: cs, acc =>
    if c.isWhitespace then
      if acc.isEmpty then pyWordsAux cs []
      else String.mk acc.reverse :: pyWordsAux cs []
    else pyWordsAux cs (c :: acc)

/-- Python's `str.split()` with no separator: the maximal whitespace-free
    runs, in order, no empty words. -/
def pyWords (s : String) : List String :=
  pyWordsAux s.data []

/-- Python's `str.replace(old, new)` for a one-character pattern (the only
    use in the source is `subtype.lower().replace(' ', '_')`). -/
def pyReplaceChar (old new : Char) (s : String) : String :=
  ⟨s.data.map (fun c => if c = old then new else c)⟩

/-- One entry of a card's `abilities` list; the cache only reads `text`
    (via `ability.get('text', '')`). -/
structure Ability where
  text : String
deriving DecidableEq, Repr

/-- One entry of a card's `attacks` list; the cache only reads `text`. -/
structure Attack where
  text : String
deriving DecidableEq, Repr

/-- The fields of a raw card record (a Python dict) that the memory cache
    reads.  `card_id`, `name` and `card_type` are `Option` because the code
    distinguishes absence (`card.get('card_id')`, defaults `''`/`'Unknown'`
    depending on the call site).  `types`, `abilities`, `attacks` default to
    `[]` at every read, and `subtype` to `''`, so absence and emptiness are
    identified there. -/
structure Card where
  card_id : Option String := none
  name : Option String := none
  card_type : Option String := none
  types : List String := []
  subtype : String := ""
  abilities : List Ability := []
  attacks : List Attack := []
deriving DecidableEq, Repr

/-- `MemoryCache._extract_synergy_tags`: the list of synergy tags of a card,
    in the order the source appends them.  Note the source appends to a
    *list*, so one tag can occur several times (e.g. two abilities whose
    text contains "draw" each append `draw_power`). -/
def extract_synergy_tags (card : Card) : List String :=
  let typeTags := card.types.map (fun ptype => "type_" ++ pyLower ptype)
  let abilityTags := (card.abilities.map (fun ability =>
    let t := pyLower ability.text
    (if strContains t "draw" then ["draw_power"] else []) ++
    (if strContains t "search" then ["search_effect"] else []) ++
    (if strContains t "energy" then ["energy_acceleration"] else []) ++
    (if strContains t "damage" then ["damage_synergy"] else []))).flatten
  let attackTags := (card.attacks.map (fun attack =>
    let t := pyLower attack.text
    (if strContains t "each" && strContains t "pokemon"
      then ["spread_damage"] else []) ++
    (if strContains t "discard" then ["discard_synergy"] else []) ++
    (if strContains t "switch" then ["switch_synergy"] else []))).flatten
  let base := typeTags ++ abilityTags ++ attackTags
  if card.subtype ≠ "" then
    base ++ ["subtype_" ++ pyReplaceChar ' ' '_' (pyLower card.subtype)]
  else base

/-- `MemoryCache._calculate_relevance`, with the owning cache's
    `strategy_context` passed explicitly.  Follows the source line by line. -/
def calculate_relevance (strategy_context : String) (card : Card)
    (search_context : String) : ℚ :=
  let score : ℚ := 1
  let card_type := pyLower (card.card_type.getD "")
  let score := if strContains (pyLower search_context) card_type
    then score + 0.5 else score
  let score := if card.abilities ≠ [] then score + 0.3 else score
  let score := if card.attacks ≠ [] then score + 0.2 else score
  let score :=
    if strategy_context ≠ "" then
      let strategy_lower := pyLower strategy_context
      let card_name_lower := pyLower (card.name.getD "")
      if (pyWords strategy_lower).any
          (fun word => strContains card_name_lower word)
      then score + 0.4 else score
    else score
  let synergy_tags := extract_synergy_tags card
  if synergy_tags ≠ [] then
    score + 0.2 * (synergy_tags.length : ℚ)
  else score

/-! ### Python dict as an insertion-ordered association list -/

/-- `d[k]` lookup returning `none` when absent (`dict.get`). -/
def dictGet? {α : Type} (d : List (String × α)) (k : String) : Option α :=
  (d.find? (fun p => p.1 == k)).map (fun p => p.2)

/-- `d[k] = v`: overwrite an existing key in place, else append at the end
    (Python dict insertion-order semantics). -/
def dictInsert {α : Type} (d : List (String × α)) (k : String) (v : α) :
    List (String × α) :=
  if d.any (fun p => p.1 == k) then
    d.map (fun p => if p.1 == k then (k, v) else p)
  else d ++ [(k, v)]

/-- `del d[k]`. -/
def dictDel {α : Type} (d : List (String × α)) (k : String) :
    List (String × α) :=
  d.filter (fun p => p.1 != k)

/-- Number of entries stored under key `k` (1 at most for a genuine dict). -/
def countKey {α : Type} (d : List (String × α)) (k : String) : Nat :=
  d.countP (fun p => p.1 == k)

/-! ### The data model of `memory_cache.py` -/

/-- `CardDiscovery`, including the fields `__post_init__` derives from
    `card_data` (`name`, `card_type`). -/
structure CardDiscovery where
  card_id : String
  card_data : Card
  discovered_at : ℚ
  search_context : String
  relevance_score : ℚ
  synergy_tags : List String
  name : String
  card_type : String
deriving DecidableEq, Repr

/-- Building a `CardDiscovery` the way `add_discovered_cards` does: relevance
    from `_calculate_relevance`, tags from `_extract_synergy_tags`, derived
    `name`/`card_type` from `__post_init__` (defaults `'Unknown'`). -/
def mkCardDiscovery (strategy_context : String) (cid : String) (card : Card)
    (now : ℚ) (search_context : String) : CardDiscovery :=
  { card_id := cid
    card_data := card
    discovered_at := now
    search_context := search_context
    relevance_score := calculate_relevance strategy_context card search_context
    synergy_tags := extract_synergy_tags card
    name := card.name.getD "Unknown"
    card_type := card.card_type.getD "Unknown" }

/-- `MemoryCache`: one user/deck session. -/
structure MemoryCache where
  user_id : String
  deck_id : Option String := none
  discovered_cards : List (String × CardDiscovery) := []
  search_history : List String := []
  strategy_context : String := ""
  synergy_patterns : List (String × List String) := []
  created_at : ℚ
  last_updated : ℚ
deriving DecidableEq, Repr

/-- A freshly constructed `MemoryCache(user_id=..., deck_id=...)`: all the
    dataclass defaults, both timestamps `datetime.now()`. -/
def mkFreshCache (user_id : String) (deck_id : Option String) (now : ℚ) :
    MemoryCache :=
  { user_id := user_id, deck_id := deck_id, created_at := now,
    last_updated := now }

/-- The last `n` elements of a list (all of it when it is shorter). -/
def lastN {α : Type} (n : Nat) (l : List α) : List α :=
  l.drop (l.length - n)

/-- `MemoryCache.add_discovered_cards`: insert (or overwrite) one discovery
    per card that has a truthy `card_id`, append the search context to the
    history, truncate the history to its last 20 entries, bump
    `last_updated`.  The returned list of new discoveries is dropped: no
    claim mentions it. -/
def add_discovered_cards (cache : MemoryCache) (cards : List Card)
    (search_context : String) (now : ℚ) : MemoryCache :=
  let dc := cards.foldl (fun d card =>
    match card.card_id with
    | none => d
    | some cid =>
      if cid = "" then d
      else dictInsert d cid
        (mkCardDiscovery cache.strategy_context cid card now search_context))
    cache.discovered_cards
  let hist := cache.search_history ++ [search_context]
  let hist := if hist.length > 20 then lastN 20 hist else hist
  { cache with discovered_cards := dc, search_history := hist,
               last_updated := now }

/-- `MemoryCache.get_cards_by_type` (values in insertion order). -/
def get_cards_by_type (cache : MemoryCache) (card_type : String) :
    List CardDiscovery :=
  (cache.discovered_cards.filter (fun p => p.2.card_type = card_type)).map
    (fun p => p.2)

/-- The record returned by `MemoryCache.get_deck_progress`. -/
structure DeckProgress where
  total_discovered : Nat
  pokemonCount : Nat
  trainerCount : Nat
  energyCount : Nat
  synergy_patterns : Nat
  deck_completion : ℚ
  search_count : Nat
deriving DecidableEq, Repr

/-- `MemoryCache.get_deck_progress`.  Note `synergy_patterns` is the length
    of the *stored* `synergy_patterns` field, not a recomputation. -/
def get_deck_progress (cache : MemoryCache) : DeckProgress :=
  { total_discovered := cache.discovered_cards.length
    pokemonCount := (get_cards_by_type cache "Pokémon").length
    trainerCount := (get_cards_by_type cache "Trainer").length
    energyCount := (get_cards_by_type cache "Energy").length
    synergy_patterns := cache.synergy_patterns.length
    deck_completion :=
      min 100 ((cache.discovered_cards.length : ℚ) / 60 * 100)
    search_count := cache.search_history.length }

/-- The inner loop of `identify_synergies`: record one occurrence of `tag`
    for the card named `name` in the running `tag_groups` dict. -/
def addTagOccurrence (name : String) (groups : List (String × List String))
    (tag : String) : List (String × List String) :=
  if groups.any (fun g => g.1 == tag) then
    groups.map (fun g => if g.1 == tag then (g.1, g.2 ++ [name]) else g)
  else groups ++ [(tag, [name])]

/-- The `tag_groups` dict built by `identify_synergies`: every discovery
    contributes its `name` once per occurrence of each tag in its
    `synergy_tags` list. -/
def tagGroups (dc : List (String × CardDiscovery)) :
    List (String × List String) :=
  dc.foldl (fun groups p =>
    p.2.synergy_tags.foldl (addTagOccurrence p.2.name) groups) []

/-- `MemoryCache.identify_synergies`: keep the tag groups with at least two
    recorded occurrences, store them on the cache, return them. -/
def identify_synergies (cache : MemoryCache) :
    (List (String × List String)) × MemoryCache :=
  let synergies := (tagGroups cache.discovered_cards).filter
    (fun g => g.2.length ≥ 2)
  (synergies, { cache with synergy_patterns := synergies })

/-! ### `MemoryCacheManager` (the registry) -/

/-- `MemoryCacheManager.cache_timeout = timedelta(hours=6)`, in seconds. -/
def cache_timeout : ℚ := 21600

/-- The composite key `f"{user_id}_{deck_id or 'default'}"`.  Python's `or`
    falls through to `'default'` for a missing deck id *and* for an empty
    string. -/
def cacheKey (user_id : String) (deck_id : Option String) : String :=
  user_id ++ "_" ++
    (match deck_id with
     | some d => if d = "" then "default" else d
     | none => "default")

/-- The registry state: `self.caches`. -/
structure Registry where
  caches : List (String × MemoryCache) := []
deriving DecidableEq, Repr

/-- `MemoryCacheManager.get_cache` (a.k.a. the spec's `get_or_create`):
    return the stored cache when present and younger than the timeout;
    otherwise discard whatever was stored and create, store and return a
    fresh cache. -/
def get_cache (r : Registry) (now : ℚ) (user_id : String)
    (deck_id : Option String) : MemoryCache × Registry :=
  let key := cacheKey user_id deck_id
  match dictGet? r.caches key with
  | some cache =>
    if now - cache.last_updated < cache_timeout then (cache, r)
    else
      let fresh := mkFreshCache user_id deck_id now
      (fresh, ⟨dictInsert (dictDel r.caches key) key fresh⟩)
  | none =>
    let fresh := mkFreshCache user_id deck_id now
    (fresh, ⟨dictInsert r.caches key fresh⟩)

/-- `MemoryCacheManager.add_cards_to_cache`: `get_cache` then
    `add_discovered_cards` on the shared session object (modelled by writing
    the mutated cache back at its key). -/
def add_cards_to_cache (r : Registry) (now : ℚ) (user_id : String)
    (cards : List Card) (search_context : String) (deck_id : Option String) :
    MemoryCache × Registry :=
  let res := get_cache r now user_id deck_id
  let c := add_discovered_cards res.1 cards search_context now
  (c, ⟨dictInsert res.2.caches (cacheKey user_id deck_id) c⟩)

/-- `MemoryCacheManager.update_strategy_context`: `get_cache`, then set
    `strategy_context` and bump `last_updated` on the shared session object. -/
def update_strategy_context (r : Registry) (now : ℚ) (user_id : String)
    (strategy : String) (deck_id : Option String) : Registry :=
  let res := get_cache r now user_id deck_id
  let c := { res.1 with strategy_context := strategy, last_updated := now }
  ⟨dictInsert res.2.caches (cacheKey user_id deck_id) c⟩

/-! ### The search-decision policy (`claude_client.py`) -/

/-- The request-trigger vocabulary of `_should_perform_new_search`. -/
def requestTriggers : List String :=
  ["show me", "find", "search for", "get", "need"]

/-- The question-trigger vocabulary of `_should_perform_new_search`. -/
def questionTriggers : List String :=
  ["what", "how", "can you", "build", "recommend", "suggest"]

/-- The fixed strategic vocabulary of `_should_perform_new_search`. -/
def strategicKeywords : List String :=
  ["spread damage", "draw power", "energy acceleration", "disruption",
   "stall"]

/-- The body of the request-trigger block: any of its four early
    `return True` conditions. -/
def requestBlockFires (message_lower : String) (cache : MemoryCache) : Bool :=
  let progress := get_deck_progress cache
  ((strContains message_lower "trainer" || strContains message_lower "support"
      || strContains message_lower "item")
    && progress.trainerCount < 10)
  || (strContains message_lower "energy" && progress.energyCount < 5)
  || ((strContains message_lower "pokemon"
        || strContains message_lower "attacker")
    && progress.pokemonCount < 20)
  || strategicKeywords.any (fun strategy =>
      strContains message_lower strategy
      && !(cache.search_history.any (fun prev =>
            strContains (pyLower prev) strategy)))

/-- `ClaudeClient._should_perform_new_search` (the spec's
    `should_search(message, cache)`). -/
def should_search (user_message : String) (cache : MemoryCache) : Bool :=
  let message_lower := pyLower user_message
  if cache.discovered_cards.length = 0 then true
  else if (requestTriggers.any (fun k => strContains message_lower k))
      && requestBlockFires message_lower cache then true
  else if questionTriggers.any (fun k => strContains message_lower k) then
    false
  else cache.discovered_cards.length < 60

/-! ### Association-list (dict) lemmas -/

theorem find?_map_of_keys {α : Type} (f : String × α → String × α)
    (hf : ∀ e, (f e).1 = e.1) (d : List (String × α)) (k : String) :
    (d.map f).find? (fun q => q.1 == k)
      = (d.find? (fun q => q.1 == k)).map f := by
  induction d with
  | nil => simp
  | cons e rest ih =>
    by_cases h : (e.1 == k) = true
    · have h2 : ((f e).1 == k) = true := by rw [hf e]; exact h
      rw [List.map_cons,
        List.find?_cons_of_pos (p := fun q : String × α => q.1 == k) _ h2,
        List.find?_cons_of_pos (p := fun q : String × α => q.1 == k) _ h]
      simp
    · have h2 : ¬(((f e).1 == k) = true) := by rw [hf e]; exact h
      rw [List.map_cons,
        List.find?_cons_of_neg (p := fun q : String × α => q.1 == k) _ h2,
        List.find?_cons_of_neg (p := fun q : String × α => q.1 == k) _ h, ih]

theorem dictGet?_dictInsert_self {α : Type} (d : List (String × α))
    (k : String) (v : α) : dictGet? (dictInsert d k v) k = some v := by
  unfold dictInsert
  by_cases hany : d.any (fun p => p.1 == k)
  · rw [if_pos hany]
    unfold dictGet?
    rw [find?_map_of_keys (fun p => if p.1 == k then (k, v) else p)
      (fun e => by
        show (if (e.1 == k) = true then (k, v) else e).1 = e.1
        by_cases he : (e.1 == k) = true
        · rw [if_pos he]; exact (eq_of_beq he).symm
        · rw [if_neg he])]
    obtain ⟨e, he, hpe⟩ := List.any_eq_true.mp hany
    obtain ⟨e', he'⟩ := Option.isSome_iff_exists.mp
      ((List.find?_isSome (p := fun q : String × α => q.1 == k)).mpr
        ⟨e, he, hpe⟩)
    have hpe' : (e'.1 == k) = true :=
      List.find?_some (p := fun q : String × α => q.1 == k) he'
    rw [he']
    simp [eq_of_beq hpe']
  · rw [if_neg hany]
    have hnone : d.find? (fun p => p.1 == k) = none :=
      List.find?_eq_none.mpr (fun a ha hk =>
        hany (List.any_eq_true.mpr ⟨a, ha, hk⟩))
    unfold dictGet?
    rw [List.find?_append, hnone]
    simp

theorem countKey_dictInsert {α : Type} (d : List (String × α)) (k : String)
    (v : α) (h : countKey d k ≤ 1) : countKey (dictInsert d k v) k = 1 := by
  unfold dictInsert countKey at *
  by_cases hany : d.any (fun p => p.1 == k)
  · rw [if_pos hany, List.countP_map]
    have hcomp : ((fun p : String × α => p.1 == k) ∘
        (fun p => if p.1 == k then (k, v) else p))
          = (fun p : String × α => p.1 == k) := by
      funext e
      simp only [Function.comp_apply]
      by_cases he : e.1 = k <;> simp [he]
    rw [hcomp]
    have hpos : 0 < d.countP (fun p => p.1 == k) :=
      List.countP_pos_iff.mpr (List.any_eq_true.mp hany)
    omega
  · rw [if_neg hany, List.countP_append]
    have h0 : d.countP (fun p => p.1 == k) = 0 :=
      List.countP_eq_zero.mpr (fun a ha hk =>
        hany (List.any_eq_true.mpr ⟨a, ha, hk⟩))
    simp [h0, List.countP_cons]

theorem dictGet?_eq_of_mem {α : Type} {d : List (String × α)} {k : String}
    {v : α} (hnd : (d.map (fun p => p.1)).Nodup) (hmem : (k, v) ∈ d) :
    dictGet? d k = some v := by
  induction d with
  | nil => simp at hmem
  | cons e rest ih =>
    rw [List.map_cons, List.nodup_cons] at hnd
    rcases List.mem_cons.mp hmem with heq | hrest
    · rw [← heq]
      unfold dictGet?
      rw [List.find?_cons_of_pos _ (by simp)]
      rfl
    · have hne : ¬((e.1 == k) = true) := by
        intro hbeq
        exact hnd.1 ((eq_of_beq hbeq) ▸
          (List.mem_map.mpr ⟨(k, v), hrest, rfl⟩))
      unfold dictGet?
      rw [List.find?_cons_of_neg (p := fun q : String × α => q.1 == k) _ hne]
      exact ih hnd.2 hrest

/-! ### Relevance scoring: the spec's additive formula (C1) -/

/-- The spec's weighted-additive relevance formula *as the claim states it*:
    the synergy bonus is `0.2` times the number of **distinct** synergy tags. -/
def relevanceFormulaDistinct (strategy_context : String) (card : Card)
    (search_context : String) : ℚ :=
  1 + (if strContains (pyLower search_context)
            (pyLower (card.card_type.getD "")) then 0.5 else 0)
    + (if card.abilities ≠ [] then 0.3 else 0)
    + (if card.attacks ≠ [] then 0.2 else 0)
    + (if strategy_context ≠ ""
          ∧ (pyWords (pyLower strategy_context)).any
              (fun word => strContains (pyLower (card.name.getD "")) word)
        then 0.4 else 0)
    + 0.2 * (((extract_synergy_tags card).dedup).length : ℚ)

/-- The weighted-additive relevance formula the code actually implements:
    the synergy bonus is `0.2` times the number of synergy tags counted
    **with multiplicity** (`len(synergy_tags)` on a list that can repeat a
    tag). -/
def relevanceFormula (strategy_context : String) (card : Card)
    (search_context : String) : ℚ :=
  1 + (if strContains (pyLower search_context)
            (pyLower (card.card_type.getD "")) then 0.5 else 0)
    + (if card.abilities ≠ [] then 0.3 else 0)
    + (if card.attacks ≠ [] then 0.2 else 0)
    + (if strategy_context ≠ ""
          ∧ (pyWords (pyLower strategy_context)).any
              (fun word => strContains (pyLower (card.name.getD "")) word)
        then 0.4 else 0)
    + 0.2 * ((extract_synergy_tags card).length : ℚ)

/-- A card whose two abilities both mention "draw": `_extract_synergy_tags`
    appends `draw_power` twice, so the counted and the distinct tag totals
    differ. -/
def drawDrawCard : Card :=
  { card_id := some "c1", name := some "Alpha", card_type := some "Zzz",
    abilities := [⟨"draw"⟩, ⟨"draw"⟩] }

/-- C1, counterexample: the relevance score stored at discovery creation for
    `drawDrawCard` under search context `"q"` is `1.7`
    (= 1 + 0.3 abilities + 0.2·2 tags with multiplicity), while the claim's
    formula with the *distinct* tag count yields `1.5`; so the claim's
    "count of distinct synergy tags" does not match the code. -/
theorem relevance_distinct_counterexample :
    (dictGet? (add_discovered_cards (mkFreshCache "u" none 0) [drawDrawCard]
        "q" 0).discovered_cards "c1").map
          (fun disc => disc.relevance_score) = some (17 / 10)
    ∧ relevanceFormulaDistinct "" drawDrawCard "q" = 3 / 2
    ∧ calculate_relevance "" drawDrawCard "q"
        ≠ relevanceFormulaDistinct "" drawDrawCard "q" := by
  have hget : dictGet? (add_discovered_cards (mkFreshCache "u" none 0)
      [drawDrawCard] "q" 0).discovered_cards "c1"
        = some (mkCardDiscovery "" "c1" drawDrawCard 0 "q") := rfl
  have htags : extract_synergy_tags drawDrawCard
      = ["draw_power", "draw_power"] := by decide
  have hsub : strContains (pyLower "q") (pyLower "Zzz") = false := by decide
  have hdedup : (extract_synergy_tags drawDrawCard).dedup
      = ["draw_power"] := by decide
  have htype : drawDrawCard.card_type = some "Zzz" := rfl
  have habil : drawDrawCard.abilities
      = [{ text := "draw" }, { text := "draw" }] := rfl
  have hatt : drawDrawCard.attacks = ([] : List Attack) := rfl
  have hdistinct : relevanceFormulaDistinct "" drawDrawCard "q" = 3 / 2 := by
    simp [relevanceFormulaDistinct, htype, hsub, habil, hatt, hdedup]
    norm_num
  have hcalc : calculate_relevance "" drawDrawCard "q" = 17 / 10 := by
    simp [calculate_relevance, htype, hsub, habil, hatt, htags]
    norm_num
  refine ⟨?_, hdistinct, ?_⟩
  · rw [hget]
    simp only [Option.map_some']
    rw [show (mkCardDiscovery "" "c1" drawDrawCard 0 "q").relevance_score
      = calculate_relevance "" drawDrawCard "q" from rfl, hcalc]
  · rw [hcalc, hdistinct]
    norm_num

/-- C1 (amended): `_calculate_relevance` is exactly the weighted-additive
    heuristic of the spec — base 1.0, +0.5 when the lowercased type label
    occurs in the lowercased search context, +0.3 for a non-empty abilities
    list, +0.2 for a non-empty attacks list, +0.4 when some whitespace word
    of a non-empty strategy context occurs in the lowercased card name, and
    +0.2 per extracted synergy tag counted **with multiplicity**; missing
    fields contribute their zero default and never fail. -/
theorem calculate_relevance_additive (strategy_context : String) (card : Card)
    (search_context : String) :
    calculate_relevance strategy_context card search_context
      = relevanceFormula strategy_context card search_context := by
  simp only [calculate_relevance, relevanceFormula]
  by_cases h1 : strContains (pyLower search_context)
      (pyLower (card.card_type.getD "")) = true <;>
  by_cases h2 : card.abilities ≠ [] <;>
  by_cases h3 : card.attacks ≠ [] <;>
  by_cases h4 : strategy_context ≠ "" <;>
  by_cases h5 : ∃ word ∈ pyWords (pyLower strategy_context),
      strContains (pyLower (card.name.getD "")) word = true <;>
  by_cases h6 : extract_synergy_tags card ≠ [] <;>
  simp_all
  all_goals try ring
  all_goals
    have hno : ¬(∃ word ∈ pyWords (pyLower strategy_context),
        strContains (pyLower (card.name.getD "")) word = true) := by
      intro hex
      obtain ⟨x, hx, hfx⟩ := hex
      rw [h5 x hx] at hfx
      exact Bool.false_ne_true hfx
    rw [if_neg hno, if_neg hno]
    ring

/-! ### The decision policy on an empty cache (C4) -/

/-- C4: whatever the message, `should_search` returns `true` on a cache with
    no discovered cards (always search to seed the cache). -/
theorem should_search_empty_cache (msg : String) (cache : MemoryCache)
    (h : cache.discovered_cards = []) : should_search msg cache = true := by
  unfold should_search
  rw [h]
  simp

/-- Witness for C4 at a concrete message and a fresh cache. -/
theorem should_search_empty_cache_witness :
    should_search "build me a fire deck" (mkFreshCache "u" none 0) = true :=
  should_search_empty_cache "build me a fire deck" (mkFreshCache "u" none 0)
    rfl

/-! ### Deck progress (C3) -/

/-- A Fire-typed card used to build synergy-group fixtures. -/
def fireCardA : Card :=
  { card_id := some "a", name := some "Alpha", types := ["Fire"] }

/-- A second Fire-typed card with a different id and name. -/
def fireCardB : Card :=
  { card_id := some "b", name := some "Beta", types := ["Fire"] }

/-- C3, counterexample: after discovering two cards that share the
    `type_fire` tag — so exactly one synergy-tag group with ≥ 2 members
    exists — `get_deck_progress` still reports `synergy_patterns = 0`,
    because it returns the length of the *stored* `synergy_patterns` field,
    which only `identify_synergies` (never called here) populates. -/
theorem deck_progress_synergy_counterexample :
    (get_deck_progress (add_discovered_cards (mkFreshCache "u" none 0)
        [fireCardA, fireCardB] "ctx" 0)).synergy_patterns = 0
    ∧ (identify_synergies (add_discovered_cards (mkFreshCache "u" none 0)
        [fireCardA, fireCardB] "ctx" 0)).1.length = 1 := by
  exact ⟨rfl, by decide⟩

/-- C3 (amended): `get_deck_progress` returns the total entry count of
    `discovered_cards`, exact-match bucket counts for 'Pokémon', 'Trainer'
    and 'Energy', the length of the **stored** `synergy_patterns` field
    (which equals the number of ≥2-member tag groups only right after
    `identify_synergies`, and is 0 on a cache that never called it),
    `deck_completion = min 100 (total/60*100)` — exactly 50 at 30 cards and
    capped at 100 (not 150) at 90 — and the length of `search_history`. -/
theorem get_deck_progress_spec (cache : MemoryCache) :
    (get_deck_progress cache).total_discovered
        = cache.discovered_cards.length
    ∧ (get_deck_progress cache).pokemonCount
        = (cache.discovered_cards.filter
            (fun p => p.2.card_type = "Pokémon")).length
    ∧ (get_deck_progress cache).trainerCount
        = (cache.discovered_cards.filter
            (fun p => p.2.card_type = "Trainer")).length
    ∧ (get_deck_progress cache).energyCount
        = (cache.discovered_cards.filter
            (fun p => p.2.card_type = "Energy")).length
    ∧ (get_deck_progress cache).synergy_patterns
        = cache.synergy_patterns.length
    ∧ (get_deck_progress (identify_synergies cache).2).synergy_patterns
        = (identify_synergies cache).1.length
    ∧ (get_deck_progress cache).deck_completion
        = min 100 ((cache.discovered_cards.length : ℚ) / 60 * 100)
    ∧ (cache.discovered_cards.length = 30 →
        (get_deck_progress cache).deck_completion = 50)
    ∧ (cache.discovered_cards.length = 90 →
        (get_deck_progress cache).deck_completion = 100)
    ∧ (get_deck_progress cache).search_count
        = cache.search_history.length := by
  refine ⟨rfl, ?_, ?_, ?_, rfl, rfl, rfl, ?_, ?_, rfl⟩
  · simp [get_deck_progress, get_cards_by_type]
  · simp [get_deck_progress, get_cards_by_type]
  · simp [get_deck_progress, get_cards_by_type]
  · intro h
    simp only [get_deck_progress, h]
    rw [show (((30 : ℕ) : ℚ) / 60 * 100) = 50 by norm_num]
    exact min_eq_right (by norm_num)
  · intro h
    simp only [get_deck_progress, h]
    rw [show (((90 : ℕ) : ℚ) / 60 * 100) = 150 by norm_num]
    exact min_eq_left (by norm_num)

/-- A discovery with no interesting content, used to pad fixture caches. -/
def dummyDiscovery : CardDiscovery :=
  mkCardDiscovery "" "x" { card_id := some "x" } 0 ""

/-- A session cache holding exactly 30 discovery entries. -/
def cache30 : MemoryCache :=
  { mkFreshCache "u" none 0 with
    discovered_cards := List.replicate 30 ("x", dummyDiscovery) }

/-- A session cache holding exactly 90 discovery entries. -/
def cache90 : MemoryCache :=
  { mkFreshCache "u" none 0 with
    discovered_cards := List.replicate 90 ("x", dummyDiscovery) }

/-- Witness for C3: the completion percentage is exactly 50 at 30 cards and
    capped at 100 at 90 cards. -/
theorem get_deck_progress_spec_witness :
    (get_deck_progress cache30).deck_completion = 50
    ∧ (get_deck_progress cache90).deck_completion = 100 :=
  ⟨(get_deck_progress_spec cache30).2.2.2.2.2.2.2.1
      (by simp [cache30, mkFreshCache]),
   (get_deck_progress_spec cache90).2.2.2.2.2.2.2.2.1
      (by simp [cache90, mkFreshCache])⟩

/-! ### The decision-policy default (C5) -/

/-- C5: on a non-empty cache, when the lowercased message contains none of
    the request triggers and none of the question triggers, `should_search`
    answers exactly "fewer than 60 cards discovered". -/
theorem should_search_default (msg : String) (cache : MemoryCache)
    (hne : cache.discovered_cards ≠ [])
    (hreq : ∀ k ∈ requestTriggers, strContains (pyLower msg) k = false)
    (hq : ∀ k ∈ questionTriggers, strContains (pyLower msg) k = false) :
    should_search msg cache
      = decide (cache.discovered_cards.length < 60) := by
  unfold should_search
  have h0 : ¬(cache.discovered_cards.length = 0) := by
    simpa [List.length_eq_zero] using hne
  have hr : (requestTriggers.any
      (fun k => strContains (pyLower msg) k)) = false := by
    rw [List.any_eq_false]
    intro k hk
    simp [hreq k hk]
  have hqq : (questionTriggers.any
      (fun k => strContains (pyLower msg) k)) = false := by
    rw [List.any_eq_false]
    intro k hk
    simp [hq k hk]
  simp [h0, hr, hqq]

/-- A session cache holding exactly 60 discovery entries. -/
def cache60 : MemoryCache :=
  { mkFreshCache "u" none 0 with
    discovered_cards := List.replicate 60 ("x", dummyDiscovery) }

/-- Witness for C5: with 60 discovered cards and a message free of every
    trigger phrase, the policy does not search. -/
theorem should_search_default_witness :
    should_search "hello there" cache60 = false := by
  rw [should_search_default "hello there" cache60
    (by simp [cache60, mkFreshCache]) (by decide) (by decide)]
  simp [cache60, mkFreshCache]

/-! ### The search-history bound (C6) -/

/-- A whole sequence of `add_discovered_cards` calls, each given as
    (cards, search_context, timestamp). -/
def addMany (cache : MemoryCache)
    (calls : List (List Card × String × ℚ)) : MemoryCache :=
  calls.foldl
    (fun c call => add_discovered_cards c call.1 call.2.1 call.2.2) cache

/-- One history update (append, then truncate past 20) turns the last 20 of
    `hs` into the last 20 of `hs ++ [c]`. -/
theorem lastN_step (hs : List String) (c : String) :
    (if (lastN 20 hs ++ [c]).length > 20
      then lastN 20 (lastN 20 hs ++ [c]) else lastN 20 hs ++ [c])
    = lastN 20 (hs ++ [c]) := by
  unfold lastN
  rcases Nat.lt_or_ge hs.length 20 with h | h
  · have h0 : hs.length - 20 = 0 := by omega
    have h1 : (hs ++ [c]).length - 20 = 0 := by
      simp only [List.length_append, List.length_cons, List.length_nil]
      omega
    rw [h0, List.drop_zero, h1, List.drop_zero, if_neg]
    simp only [List.length_append, List.length_cons, List.length_nil]
    omega
  · have hlen : (List.drop (hs.length - 20) hs).length = 20 := by
      rw [List.length_drop]; omega
    have hcond : (List.drop (hs.length - 20) hs ++ [c]).length > 20 := by
      rw [List.length_append, hlen]
      simp
    rw [if_pos hcond]
    rw [List.length_append, List.length_append, hlen]
    rw [List.drop_append_eq_append_drop, List.drop_append_eq_append_drop]
    rw [List.drop_drop, hlen]
    have e1 : hs.length - 20 + (20 + [c].length - 20) = hs.length + [c].length - 20 := by
      simp only [List.length_cons, List.length_nil]
      omega
    rw [e1]
    have e2 : 20 + [c].length - 20 - 20 = 0 := by
      simp only [List.length_cons, List.length_nil]
    have e3 : hs.length + [c].length - 20 - hs.length = 0 := by
      simp only [List.length_cons, List.length_nil]
      omega
    rw [e2, e3]

/-- Invariant carried through `addMany`: a history that is the last 20 of
    some log stays the last 20 of the extended log. -/
theorem addMany_history_aux (calls : List (List Card × String × ℚ)) :
    ∀ (cache : MemoryCache) (hs : List String),
      cache.search_history = lastN 20 hs →
      (addMany cache calls).search_history
        = lastN 20 (hs ++ calls.map (fun call => call.2.1)) := by
  induction calls with
  | nil =>
    intro cache hs h
    simpa [addMany] using h
  | cons call rest ih =>
    intro cache hs h
    have hstep : (add_discovered_cards cache call.1 call.2.1
        call.2.2).search_history = lastN 20 (hs ++ [call.2.1]) := by
      rw [show (add_discovered_cards cache call.1 call.2.1
          call.2.2).search_history
        = if (cache.search_history ++ [call.2.1]).length > 20
          then lastN 20 (cache.search_history ++ [call.2.1])
          else cache.search_history ++ [call.2.1] from rfl]
      rw [h]
      exact lastN_step hs call.2.1
    have hrec := ih (add_discovered_cards cache call.1 call.2.1 call.2.2)
      (hs ++ [call.2.1]) hstep
    simpa [addMany, List.append_assoc] using hrec

/-- The last `n` of a list has length `min (length) n`. -/
theorem lastN_length {α : Type} (n : Nat) (l : List α) :
    (lastN n l).length = min l.length n := by
  simp only [lastN, List.length_drop]
  omega

/-- C6: starting from a fresh cache, after any sequence of `n`
    `add_discovered_cards` calls the history is exactly the last
    `min n 20` search contexts in call order (oldest dropped first), so its
    length is `min n 20` — in particular 20 after 25 calls. -/
theorem search_history_bound (u : String) (d : Option String) (t : ℚ)
    (calls : List (List Card × String × ℚ)) :
    (addMany (mkFreshCache u d t) calls).search_history
        = lastN 20 (calls.map (fun call => call.2.1))
    ∧ (addMany (mkFreshCache u d t) calls).search_history.length
        = min calls.length 20 := by
  have h := addMany_history_aux calls (mkFreshCache u d t) []
    (by simp [mkFreshCache, lastN])
  simp only [List.nil_append] at h
  refine ⟨h, ?_⟩
  rw [h, lastN_length, List.length_map]

/-! ### Registry get-or-create and TTL expiry (C7) -/

/-- C7: for a stored cache, `get_cache` returns it (and leaves the registry
    alone) exactly when it is younger than the 6-hour timeout; an expired
    cache is replaced by — and the call returns — a fresh cache with empty
    `discovered_cards` and `created_at = now`; an absent key also yields a
    fresh stored cache.  `get_cache` is a total function: no error case
    exists. -/
theorem get_cache_ttl (r : Registry) (now : ℚ) (u : String)
    (d : Option String) :
    (∀ c, dictGet? r.caches (cacheKey u d) = some c →
      ((get_cache r now u d = (c, r)) ↔ now - c.last_updated < cache_timeout)
      ∧ (cache_timeout ≤ now - c.last_updated →
          (get_cache r now u d).1.discovered_cards = []
          ∧ (get_cache r now u d).1.created_at = now
          ∧ (get_cache r now u d).1.strategy_context = ""
          ∧ dictGet? (get_cache r now u d).2.caches (cacheKey u d)
              = some ((get_cache r now u d).1)))
    ∧ (dictGet? r.caches (cacheKey u d) = none →
        (get_cache r now u d).1 = mkFreshCache u d now
        ∧ dictGet? (get_cache r now u d).2.caches (cacheKey u d)
            = some (mkFreshCache u d now)) := by
  constructor
  · intro c hc
    by_cases hlt : now - c.last_updated < cache_timeout
    · refine ⟨⟨fun _ => hlt, fun _ => ?_⟩, fun hge => absurd hlt
        (not_lt.mpr hge)⟩
      simp only [get_cache, hc]
      rw [if_pos hlt]
    · refine ⟨⟨fun heq => ?_, fun h2 => absurd h2 hlt⟩, fun hge => ?_⟩
      · exfalso
        simp only [get_cache, hc] at heq
        rw [if_neg hlt] at heq
        have hfst := congrArg Prod.fst heq
        simp only at hfst
        have hlu : c.last_updated = now := by
          rw [← hfst]
          rfl
        rw [hlu, sub_self] at hlt
        exact hlt (by norm_num [cache_timeout])
      · simp only [get_cache, hc]
        rw [if_neg hlt]
        exact ⟨rfl, rfl, rfl, dictGet?_dictInsert_self _ _ _⟩
  · intro hc
    simp only [get_cache, hc]
    exact ⟨by trivial, dictGet?_dictInsert_self _ _ _⟩

/-- A cache created at time 0, used as the stale entry of a registry. -/
def staleCache : MemoryCache := mkFreshCache "u" none 0

/-- A registry holding `staleCache` under the key of user "u". -/
def regStale : Registry := ⟨[("u_default", staleCache)]⟩

/-- Witness for C7: at `now` = 6 hours + 1 second the stored cache is
    replaced by a fresh empty one; at `now` = 100 seconds it is returned
    unchanged; a missing key yields a fresh cache. -/
theorem get_cache_ttl_witness :
    (get_cache regStale 21601 "u" none).1.discovered_cards = []
    ∧ (get_cache regStale 21601 "u" none).1.created_at = 21601
    ∧ get_cache regStale 100 "u" none = (staleCache, regStale)
    ∧ (get_cache (⟨[]⟩ : Registry) 5 "v" none).1 = mkFreshCache "v" none 5 :=
  ⟨(((get_cache_ttl regStale 21601 "u" none).1 staleCache rfl).2
      (by norm_num [staleCache, mkFreshCache, cache_timeout])).1,
   (((get_cache_ttl regStale 21601 "u" none).1 staleCache rfl).2
      (by norm_num [staleCache, mkFreshCache, cache_timeout])).2.1,
   ((get_cache_ttl regStale 100 "u" none).1 staleCache rfl).1.mpr
      (by norm_num [staleCache, mkFreshCache, cache_timeout]),
   ((get_cache_ttl (⟨[]⟩ : Registry) 5 "v" none).2 rfl).1⟩

/-! ### Idempotent re-insertion (C8) -/

/-- C8: with a fixed strategy context, adding the same card record with the
    same search context twice leaves exactly one entry for its id, and the
    second write stores a relevance score and synergy tags equal to the
    first write's (recomputed identically; no merging). -/
theorem add_same_card_twice (cache : MemoryCache) (card : Card)
    (cid ctx : String) (t1 t2 : ℚ)
    (hid : card.card_id = some cid) (hne : ¬(cid = ""))
    (hkey : countKey cache.discovered_cards cid ≤ 1) :
    countKey (add_discovered_cards (add_discovered_cards cache [card] ctx t1)
        [card] ctx t2).discovered_cards cid = 1
    ∧ ∃ d1 d2,
        dictGet? (add_discovered_cards cache [card] ctx t1).discovered_cards
          cid = some d1
        ∧ dictGet? (add_discovered_cards (add_discovered_cards cache [card]
            ctx t1) [card] ctx t2).discovered_cards cid = some d2
        ∧ d2.relevance_score = d1.relevance_score
        ∧ d2.synergy_tags = d1.synergy_tags := by
  have hdc1 : (add_discovered_cards cache [card] ctx t1).discovered_cards
      = dictInsert cache.discovered_cards cid
          (mkCardDiscovery cache.strategy_context cid card t1 ctx) := by
    simp [add_discovered_cards, hid, hne]
  have hdc2 : (add_discovered_cards (add_discovered_cards cache [card] ctx
      t1) [card] ctx t2).discovered_cards
      = dictInsert (dictInsert cache.discovered_cards cid
          (mkCardDiscovery cache.strategy_context cid card t1 ctx)) cid
          (mkCardDiscovery cache.strategy_context cid card t2 ctx) := by
    simp [add_discovered_cards, hid, hne]
  refine ⟨?_, mkCardDiscovery cache.strategy_context cid card t1 ctx,
      mkCardDiscovery cache.strategy_context cid card t2 ctx, ?_, ?_,
      rfl, rfl⟩
  · rw [hdc2]
    exact countKey_dictInsert _ _ _
      (le_of_eq (countKey_dictInsert _ _ _ hkey))
  · rw [hdc1]
    exact dictGet?_dictInsert_self _ _ _
  · rw [hdc2]
    exact dictGet?_dictInsert_self _ _ _

/-- Witness for C8 on a fresh cache and a concrete card. -/
theorem add_same_card_twice_witness :
    countKey (add_discovered_cards (add_discovered_cards
        (mkFreshCache "u" none 0) [fireCardA] "c" 0) [fireCardA] "c"
        1).discovered_cards "a" = 1 :=
  (add_same_card_twice (mkFreshCache "u" none 0) fireCardA "a" "c" 0 1 rfl
    (by decide) (by decide)).1

/-! ### Session identity by flattened key (C10) -/

/-- Modelled from the claim's words: the flattened session key
    `user_id + "_" + (deck_id if present, else "default")`. -/
def claimKey (user_id : String) (deck_id : Option String) : String :=
  user_id ++ "_" ++ deck_id.getD "default"

/-- C10, counterexample: `("a_b", some "")` and `("a", some "b_")` have the
    *same* claim-flattened key `"a_b_"`, yet cards added under the first are
    not observable under the second — Python's `deck_id or 'default'` sends
    the empty-string deck id to `"default"`, so the code keys are
    `"a_b_default"` and `"a_b_"`. -/
theorem claimKey_counterexample :
    claimKey "a_b" (some "") = claimKey "a" (some "b_")
    ∧ (add_cards_to_cache ⟨[]⟩ 0 "a_b" [fireCardA] "ctx"
        (some "")).1.discovered_cards ≠ []
    ∧ (get_cache (add_cards_to_cache ⟨[]⟩ 0 "a_b" [fireCardA] "ctx"
        (some "")).2 0 "a" (some "b_")).1.discovered_cards = [] :=
  ⟨by decide, by decide, rfl⟩

/-- C10 (amended): sessions are identified by the flattened key
    `user_id ++ "_" ++ (deck_id if present AND non-empty, else "default")`.
    Any two (user, deck) pairs with equal flattened keys observe one
    session: their `get_cache` results carry the same `discovered_cards`,
    and the cache stored by adding cards under the first pair is exactly
    what `get_cache` then returns for the second pair. -/
theorem cacheKey_sharing (r : Registry) (now : ℚ) (u1 u2 : String)
    (d1 d2 : Option String) (cards : List Card) (ctx : String)
    (h : cacheKey u1 d1 = cacheKey u2 d2) :
    (get_cache r now u1 d1).1.discovered_cards
        = (get_cache r now u2 d2).1.discovered_cards
    ∧ (get_cache (add_cards_to_cache r now u1 cards ctx d1).2 now u2 d2).1
        = (add_cards_to_cache r now u1 cards ctx d1).1 := by
  constructor
  · rcases hdg : dictGet? r.caches (cacheKey u2 d2) with _ | c
    · simp only [get_cache, h, hdg]
      rfl
    · simp only [get_cache, h, hdg]
      by_cases hlt : now - c.last_updated < cache_timeout
      · simp only [if_pos hlt]
      · simp only [if_neg hlt]
        rfl
  · have hkey2 : dictGet? (add_cards_to_cache r now u1 cards ctx
        d1).2.caches (cacheKey u2 d2)
        = some (add_cards_to_cache r now u1 cards ctx d1).1 := by
      rw [← h]
      exact dictGet?_dictInsert_self _ _ _
    have hlast : (add_cards_to_cache r now u1 cards ctx d1).1.last_updated
        = now := rfl
    simp only [get_cache, hkey2]
    rw [if_pos]
    rw [hlast, sub_self]
    norm_num [cache_timeout]

/-- Witness for C10 (amended) at the claim's own example pair
    `("a_b", none)` and `("a", "b_default")`. -/
theorem cacheKey_sharing_witness :
    (get_cache (add_cards_to_cache ⟨[]⟩ 0 "a_b" [fireCardA] "ctx" none).2 0
        "a" (some "b_default")).1
      = (add_cards_to_cache ⟨[]⟩ 0 "a_b" [fireCardA] "ctx" none).1 :=
  (cacheKey_sharing ⟨[]⟩ 0 "a_b" "a" none (some "b_default") [fireCardA]
    "ctx" (by decide)).2

/-! ### Strategy updates do not rescore (C9) -/

/-- C9: `update_strategy_context` stores, under the session key, the session
    cache returned by `get_cache` with `strategy_context` set to the new
    strategy and `last_updated` bumped to now, and with its
    `discovered_cards` mapping — hence every stored `relevance_score` and
    `synergy_tags` — entirely unchanged. -/
theorem update_strategy_context_frame (r : Registry) (now : ℚ)
    (u strategy : String) (d : Option String) :
    ∃ c, dictGet? (update_strategy_context r now u strategy d).caches
          (cacheKey u d) = some c
      ∧ c.strategy_context = strategy
      ∧ c.last_updated = now
      ∧ c.discovered_cards = (get_cache r now u d).1.discovered_cards := by
  unfold update_strategy_context
  exact ⟨_, dictGet?_dictInsert_self _ _ _, rfl, rfl, rfl⟩

/-! ### Synergy identification (C2) -/

/-- Total number of occurrences of `tag` across the discoveries' (possibly
    repetitive) `synergy_tags` lists, in cache order. -/
def tagOcc : List (String × CardDiscovery) → String → Nat
  | [], _ => 0
  | p :: rest, tag =>
    p.2.synergy_tags.countP (fun t => t == tag) + tagOcc rest tag

/-- The number of names recorded under `tag` in a `tag_groups` dict
    (0 when the tag is absent). -/
def groupLen (groups : List (String × List String)) (tag : String) : Nat :=
  match dictGet? groups tag with
  | some names => names.length
  | none => 0

/-- Recording one occurrence of `t` grows exactly the group of `t` by one
    name. -/
theorem groupLen_addTagOccurrence (name : String)
    (groups : List (String × List String)) (t tag : String) :
    groupLen (addTagOccurrence name groups t) tag
      = groupLen groups tag + (if t == tag then 1 else 0) := by
  unfold addTagOccurrence
  by_cases hany : groups.any (fun g => g.1 == t)
  · rw [if_pos hany]
    unfold groupLen dictGet?
    rw [find?_map_of_keys (fun g => if g.1 == t then (g.1, g.2 ++ [name])
        else g)
      (fun e => by
        show (if (e.1 == t) = true then (e.1, e.2 ++ [name]) else e).1 = e.1
        by_cases he : (e.1 == t) = true
        · rw [if_pos he]
        · rw [if_neg he])]
    rcases hf : groups.find? (fun g => g.1 == tag) with _ | e
    · by_cases hbt : (t == tag) = true
      · exfalso
        obtain ⟨g, hg, hgt⟩ := List.any_eq_true.mp hany
        have : (g.1 == tag) = true := by
          rw [eq_of_beq hgt, eq_of_beq hbt]
          simp
        exact absurd this (by simp [List.find?_eq_none.mp hf g hg])
      · simp [hf, hbt]
    · have htag : (e.1 == tag) = true :=
        List.find?_some (p := fun g : String × List String => g.1 == tag) hf
      by_cases hbt : (t == tag) = true
      · have het : e.1 = t := by
          rw [eq_of_beq htag, eq_of_beq hbt]
        simp [hf, het, hbt]
      · have het : e.1 ≠ t := by
          intro hh
          exact hbt (by rw [← hh]; exact htag)
        simp [hf, het, hbt]
  · rw [if_neg hany]
    unfold groupLen dictGet?
    rw [List.find?_append]
    rcases hf : groups.find? (fun g => g.1 == tag) with _ | e
    · have hsingle : ([(t, [name])].find? (fun g => g.1 == tag))
          = if (t == tag) = true then some (t, [name]) else none := by
        by_cases hbt : (t == tag) = true
        · rw [if_pos hbt]
          exact List.find?_cons_of_pos _ hbt
        · rw [if_neg hbt]
          exact List.find?_cons_of_neg _ hbt
      rw [hf, hsingle]
      by_cases hbt : (t == tag) = true
      · simp [hbt]
      · simp [hbt]
    · have htag : (e.1 == tag) = true :=
        List.find?_some (p := fun g : String × List String => g.1 == tag) hf
      have hbt : ¬((t == tag) = true) := by
        intro hbt
        have hmem := List.mem_of_find?_eq_some hf
        exact hany (List.any_eq_true.mpr ⟨e, hmem, by
          rw [eq_of_beq htag, eq_of_beq hbt]
          simp⟩)
      simp [hf, hbt]

/-- Folding one discovery's tag list into the groups adds its per-tag
    occurrence counts. -/
theorem groupLen_foldTags (tags : List String) (name tag : String) :
    ∀ groups : List (String × List String),
      groupLen (tags.foldl (addTagOccurrence name) groups) tag
        = groupLen groups tag + tags.countP (fun t => t == tag) := by
  induction tags with
  | nil => intro groups; simp
  | cons t rest ih =>
    intro groups
    rw [List.foldl_cons, ih (addTagOccurrence name groups t),
      groupLen_addTagOccurrence, List.countP_cons]
    omega

/-- Folding whole discoveries into the groups adds their total occurrence
    counts. -/
theorem groupLen_foldDiscoveries (dc : List (String × CardDiscovery))
    (tag : String) :
    ∀ groups : List (String × List String),
      groupLen (dc.foldl (fun gs p =>
          p.2.synergy_tags.foldl (addTagOccurrence p.2.name) gs) groups) tag
        = groupLen groups tag + tagOcc dc tag := by
  induction dc with
  | nil => intro groups; simp [tagOcc]
  | cons p rest ih =>
    intro groups
    rw [List.foldl_cons, ih, groupLen_foldTags]
    show _ = groupLen groups tag
      + (p.2.synergy_tags.countP (fun t => t == tag) + tagOcc rest tag)
    omega

/-- The group recorded for `tag` by `tag_groups` has exactly one name per
    occurrence of `tag` among the discoveries. -/
theorem tagGroups_groupLen (dc : List (String × CardDiscovery))
    (tag : String) : groupLen (tagGroups dc) tag = tagOcc dc tag := by
  have h := groupLen_foldDiscoveries dc tag []
  rw [tagGroups, h]
  simp [groupLen, dictGet?]

/-- `addTagOccurrence` keeps the group keys distinct. -/
theorem keys_nodup_addTagOccurrence (name : String)
    (groups : List (String × List String)) (t : String)
    (h : (groups.map (fun g => g.1)).Nodup) :
    ((addTagOccurrence name groups t).map (fun g => g.1)).Nodup := by
  unfold addTagOccurrence
  by_cases hany : groups.any (fun g => g.1 == t)
  · rw [if_pos hany, List.map_map]
    have : ((fun g : String × List String => g.1) ∘
        (fun g => if g.1 == t then (g.1, g.2 ++ [name]) else g))
          = (fun g : String × List String => g.1) := by
      funext e
      show (if (e.1 == t) = true then (e.1, e.2 ++ [name]) else e).1 = e.1
      by_cases he : (e.1 == t) = true
      · rw [if_pos he]
      · rw [if_neg he]
    rw [this]
    exact h
  · rw [if_neg hany, List.map_append]
    rw [List.nodup_append]
    refine ⟨h, by simp, ?_⟩
    intro a ha hb
    simp only [List.map_cons, List.map_nil, List.mem_singleton] at hb
    subst hb
    obtain ⟨g, hg, hgt⟩ := List.mem_map.mp ha
    exact hany (List.any_eq_true.mpr ⟨g, hg, by rw [hgt]; simp⟩)

/-- Folding a tag list preserves distinctness of the group keys. -/
theorem keys_nodup_foldTags (tags : List String) (name : String) :
    ∀ groups : List (String × List String),
      (groups.map (fun g => g.1)).Nodup →
      ((tags.foldl (addTagOccurrence name) groups).map
        (fun g => g.1)).Nodup := by
  induction tags with
  | nil => intro groups h; simpa using h
  | cons t rest ih =>
    intro groups h
    rw [List.foldl_cons]
    exact ih _ (keys_nodup_addTagOccurrence name groups t h)

/-- The `tag_groups` dict built by `identify_synergies` has distinct keys. -/
theorem tagGroups_keys_nodup (dc : List (String × CardDiscovery)) :
    ((tagGroups dc).map (fun g => g.1)).Nodup := by
  rw [tagGroups]
  have : ∀ groups : List (String × List String),
      (groups.map (fun g => g.1)).Nodup →
      ((dc.foldl (fun gs p =>
          p.2.synergy_tags.foldl (addTagOccurrence p.2.name) gs)
        groups).map (fun g => g.1)).Nodup := by
    induction dc with
    | nil => intro groups h; simpa using h
    | cons p rest ih =>
      intro groups h
      rw [List.foldl_cons]
      exact ih _ (keys_nodup_foldTags p.2.synergy_tags p.2.name groups h)
  exact this [] (by simp)

/-- A successful dict lookup comes from a member entry. -/
theorem mem_of_dictGet? {α : Type} {d : List (String × α)} {k : String}
    {v : α} (h : dictGet? d k = some v) : (k, v) ∈ d := by
  unfold dictGet? at h
  rcases hf : d.find? (fun p => p.1 == k) with _ | e
  · rw [hf] at h
    simp at h
  · rw [hf] at h
    simp only [Option.map_some', Option.some.injEq] at h
    have hk : e.1 = k :=
      eq_of_beq (List.find?_some (p := fun p : String × α => p.1 == k) hf)
    have hm := List.mem_of_find?_eq_some hf
    obtain ⟨e1, e2⟩ := e
    simp only at hk h
    rw [← hk, ← h]
    exact hm

/-- C2, counterexample: one single discovered card whose tag list repeats
    `draw_power` (two abilities mention "draw") makes `identify_synergies`
    output that tag — attached to exactly one discovered card — because the
    source counts tag occurrences, not distinct card names. -/
theorem synergy_singleton_counterexample :
    (add_discovered_cards (mkFreshCache "u" none 0) [drawDrawCard] "ctx"
        0).discovered_cards.length = 1
    ∧ (identify_synergies (add_discovered_cards (mkFreshCache "u" none 0)
        [drawDrawCard] "ctx" 0)).1 = [("draw_power", ["Alpha", "Alpha"])] :=
  ⟨by decide, by decide⟩

/-- C2 (amended): a tag appears in `identify_synergies()` output exactly
    when its total occurrence count over the discoveries' tag lists
    (counted with multiplicity, so a card repeating a tag counts several
    times) is at least 2, and then its group holds one owning card name per
    occurrence. -/
theorem identify_synergies_spec (cache : MemoryCache) (tag : String) :
    ((∃ names, (tag, names) ∈ (identify_synergies cache).1)
      ↔ 2 ≤ tagOcc cache.discovered_cards tag)
    ∧ ∀ names, (tag, names) ∈ (identify_synergies cache).1 →
        names.length = tagOcc cache.discovered_cards tag := by
  have hnd := tagGroups_keys_nodup cache.discovered_cards
  have hlen := tagGroups_groupLen cache.discovered_cards tag
  have hval : ∀ names, (tag, names) ∈ tagGroups cache.discovered_cards →
      names.length = tagOcc cache.discovered_cards tag := by
    intro names hmem
    have hget := dictGet?_eq_of_mem hnd hmem
    rw [← hlen]
    unfold groupLen
    rw [hget]
  have hout : ∀ names, (tag, names) ∈ (identify_synergies cache).1 ↔
      ((tag, names) ∈ tagGroups cache.discovered_cards
        ∧ 2 ≤ names.length) := by
    intro names
    show (tag, names) ∈ (tagGroups cache.discovered_cards).filter
        (fun g => g.2.length ≥ 2) ↔ _
    rw [List.mem_filter]
    constructor
    · rintro ⟨hm, hc⟩
      exact ⟨hm, by simpa using hc⟩
    · rintro ⟨hm, hc⟩
      exact ⟨hm, by simpa using hc⟩
  constructor
  · constructor
    · rintro ⟨names, hmem⟩
      obtain ⟨hm, hc⟩ := (hout names).mp hmem
      rw [← hval names hm]
      exact hc
    · intro h2
      rcases hdg : dictGet? (tagGroups cache.discovered_cards) tag
          with _ | names
      · exfalso
        have : groupLen (tagGroups cache.discovered_cards) tag = 0 := by
          unfold groupLen
          rw [hdg]
        omega
      · have hmem := mem_of_dictGet? hdg
        have hlen2 : names.length = tagOcc cache.discovered_cards tag :=
          hval names hmem
        exact ⟨names, (hout names).mpr ⟨hmem, by omega⟩⟩
  · intro names hmem
    exact hval names ((hout names).mp hmem).1

/-- Witness for C2 (amended): two Fire cards share `type_fire` twice in
    total, so the tag is reported, with one name per occurrence. -/
theorem identify_synergies_spec_witness :
    (∃ names, ("type_fire", names) ∈ (identify_synergies
        (add_discovered_cards (mkFreshCache "u" none 0)
          [fireCardA, fireCardB] "ctx" 0)).1)
    ∧ (["Alpha", "Beta"].length = tagOcc (add_discovered_cards
        (mkFreshCache "u" none 0) [fireCardA, fireCardB] "ctx"
          0).discovered_cards "type_fire") :=
  ⟨(identify_synergies_spec (add_discovered_cards (mkFreshCache "u" none 0)
      [fireCardA, fireCardB] "ctx" 0) "type_fire").1.mpr (by decide),
   (identify_synergies_spec (add_discovered_cards (mkFreshCache "u" none 0)
      [fireCardA, fireCardB] "ctx" 0) "type_fire").2 ["Alpha", "Beta"]
      (by decide)⟩

end PokemonCache
